import Mathlib

set_option maxRecDepth 100000

/-!
Verification of the PNG-style chunk codec (`src/chunk.rs`): the `Chunk`
data type, its constructor `Chunk::new`, serializer `Chunk::as_bytes`,
the CRC-32/ISO-HDLC checksum `Chunk::crc_checksum`, and the fallible
decoder `TryFrom<&[u8]> for Chunk`, together with the `Display`
implementation built on `Chunk::data_as_string`.

Bytes are modelled as natural numbers (in-range values are `< 256`);
`u32` values are natural numbers `< 2^32`, with wrap-around written as
an explicit `% 4294967296` where the Rust code performs an `as u32`
cast that can truncate.
-/

/-- A 4-byte chunk type tag (the `ChunkType` collaborator), holding its
four raw bytes. `chunk_type.rs` exposes it to the codec through
`bytes()`, equality, and fallible construction from 4 bytes. -/
structure ChunkType where
  b0 : Nat
  b1 : Nat
  b2 : Nat
  b3 : Nat
deriving DecidableEq, Repr

/-- The 4 raw bytes of the tag, in order (`ChunkType::bytes`). -/
def ChunkType.bytes (t : ChunkType) : List Nat :=
  [t.b0, t.b1, t.b2, t.b3]

/-- Modelled from the spec: the tag naming rule of the missing
`chunk_type.rs` — each tag byte must be an ASCII letter
(spec §1 "ASCII-letter and case-bit semantics", §6 collaborator
contract). -/
def isAsciiLetter (b : Nat) : Bool :=
  decide ((65 ≤ b ∧ b ≤ 90) ∨ (97 ≤ b ∧ b ≤ 122))

/-- Modelled from the spec: `ChunkType`'s validating construction from
exactly 4 input bytes (`TryFrom<[u8; 4]> for ChunkType` in the missing
`chunk_type.rs`): it "fails if the bytes violate the tag's naming
rules" (spec §6), i.e. if any byte is not an ASCII letter. -/
def ChunkType.tryFrom (bs : List Nat) : Option ChunkType :=
  match bs with
  | [a, b, c, d] =>
    if isAsciiLetter a && isAsciiLetter b && isAsciiLetter c && isAsciiLetter d then
      some ⟨a, b, c, d⟩
    else
      none
  | _ => none

/-- A tag is valid when all four of its bytes are ASCII letters. -/
def ChunkType.isValid (t : ChunkType) : Bool :=
  isAsciiLetter t.b0 && isAsciiLetter t.b1 && isAsciiLetter t.b2 && isAsciiLetter t.b3

/-- One bit step of the reflected CRC-32 computation: if the low bit is
set, shift right and xor with the reversed polynomial `0xEDB88320`,
else just shift right. -/
def crcBit (c : Nat) : Nat :=
  if c % 2 = 1 then (c / 2) ^^^ 3988292384 else c / 2

/-- Eight bit steps. -/
def crcBits : Nat → Nat → Nat
  | 0, c => c
  | n + 1, c => crcBits n (crcBit c)

/-- Absorb one byte into the running CRC state: xor it into the low
8 bits, then run 8 bit steps. -/
def crcByte (c b : Nat) : Nat :=
  crcBits 8 (c ^^^ b)

/-- CRC-32/ISO-HDLC of a byte list (the `crc` crate's
`Crc::<u32>::new(&CRC_32_ISO_HDLC).checksum`): initial state
`0xFFFFFFFF`, reflected byte steps, final xor with `0xFFFFFFFF`. -/
def crc32 (bs : List Nat) : Nat :=
  (bs.foldl crcByte 4294967295) ^^^ 4294967295

/-- The in-memory chunk record (`struct Chunk` in `chunk.rs`):
a `u32` length, the tag, the data bytes, and a `u32` crc. -/
structure Chunk where
  length : Nat
  chunk_type : ChunkType
  data : List Nat
  crc : Nat
deriving DecidableEq, Repr

/-- `Chunk::crc_checksum`: CRC-32 over the tag's 4 bytes followed by
the data bytes. -/
def Chunk.crc_checksum (chunk_type : ChunkType) (data : List Nat) : Nat :=
  crc32 (chunk_type.bytes ++ data)

/-- `Chunk::new`: stores `data.len() as u32` (which wraps modulo `2^32`)
as the length and the computed checksum as the crc. -/
def Chunk.new (chunk_type : ChunkType) (data : List Nat) : Chunk :=
  { length := data.length % 4294967296
    chunk_type := chunk_type
    data := data
    crc := Chunk.crc_checksum chunk_type data }

/-- Big-endian encoding of a `u32` value (`u32::to_be_bytes`). -/
def u32ToBE (n : Nat) : List Nat :=
  [n / 16777216 % 256, n / 65536 % 256, n / 256 % 256, n % 256]

/-- Big-endian decoding of the first 4 bytes of a list
(`u32::from_be_bytes` applied to a 4-byte slice); each entry is
reduced modulo 256, the canonical interpretation of a `u8`. Lists
shorter than 4 never occur at the call sites (they are guarded by
length checks). -/
def readU32BE (bs : List Nat) : Nat :=
  match bs with
  | b0 :: b1 :: b2 :: b3 :: _ =>
    (b0 % 256) * 16777216 + (b1 % 256) * 65536 + (b2 % 256) * 256 + (b3 % 256)
  | _ => 0

/-- `Chunk::as_bytes`: the length as 4 big-endian bytes, then the
4 tag bytes, then the data, then the crc as 4 big-endian bytes. -/
def Chunk.as_bytes (c : Chunk) : List Nat :=
  u32ToBE c.length ++ c.chunk_type.bytes ++ c.data ++ u32ToBE c.crc

/-- `enum ChunkError` in `chunk.rs`: `InvalidCrc` carries the stored
crc first and the recomputed checksum second. -/
inductive ChunkError where
  | InvalidChunkLength : ChunkError
  | InvalidCrc : Nat → Nat → ChunkError
deriving DecidableEq, Repr

/-- Outcome of running `Chunk::try_from`: a chunk, a returned
`ChunkError`, or a panic (the `.unwrap()` on the tag validation at
`chunk.rs:85` aborts instead of returning an error). -/
inductive DecodeResult where
  | ok : Chunk → DecodeResult
  | err : ChunkError → DecodeResult
  | panic : DecodeResult
deriving DecidableEq, Repr

/-- `TryFrom<&[u8]> for Chunk` (`chunk.rs:74-102`):
reject slices shorter than 12; read the declared length big-endian
from bytes 0..4; reject slices shorter than `length + 12`; validate
the tag bytes 4..8 (the code calls `.unwrap()` on the result, so a
validation failure is a panic, not an error return); take bytes
`8..8+length` as data and bytes `8+length..12+length` as the stored
crc; reject if the stored crc differs from the recomputed checksum;
otherwise return the assembled chunk. -/
def Chunk.tryFrom (value : List Nat) : DecodeResult :=
  if value.length < 12 then
    .err .InvalidChunkLength
  else if value.length < readU32BE value + 12 then
    .err .InvalidChunkLength
  else
    match ChunkType.tryFrom ((value.drop 4).take 4) with
    | none => .panic
    | some chunk_type =>
      if readU32BE (value.drop (8 + readU32BE value)) ≠
          Chunk.crc_checksum chunk_type ((value.drop 8).take (readU32BE value)) then
        .err (.InvalidCrc (readU32BE (value.drop (8 + readU32BE value)))
          (Chunk.crc_checksum chunk_type ((value.drop 8).take (readU32BE value))))
      else
        .ok { length := readU32BE value
              chunk_type := chunk_type
              data := (value.drop 8).take (readU32BE value)
              crc := readU32BE (value.drop (8 + readU32BE value)) }

/-- UTF-8 validity of a byte sequence, as checked by Rust's
`String::from_utf8` (RFC 3629): ASCII bytes stand alone; `C2..DF`
lead a 2-byte sequence; `E0..EF` lead a 3-byte sequence (excluding
overlong forms under `E0` and surrogates under `ED`); `F0..F4` lead a
4-byte sequence (excluding overlong forms under `F0` and values above
`U+10FFFF` under `F4`); continuation bytes are `80..BF`. -/
def utf8Valid : List Nat → Bool
  | [] => true
  | b :: rest =>
    if b < 128 then utf8Valid rest
    else if b < 194 then false
    else if b < 224 then
      match rest with
      | b1 :: rest2 =>
        if 128 ≤ b1 ∧ b1 < 192 then utf8Valid rest2 else false
      | [] => false
    else if b < 240 then
      match rest with
      | b1 :: b2 :: rest2 =>
        if (if b = 224 then 160 else 128) ≤ b1 ∧ b1 < (if b = 237 then 160 else 192) ∧
            128 ≤ b2 ∧ b2 < 192 then
          utf8Valid rest2
        else false
      | _ => false
    else if b < 245 then
      match rest with
      | b1 :: b2 :: b3 :: rest2 =>
        if (if b = 240 then 144 else 128) ≤ b1 ∧ b1 < (if b = 244 then 144 else 192) ∧
            128 ≤ b2 ∧ b2 < 192 ∧ 128 ≤ b3 ∧ b3 < 192 then
          utf8Valid rest2
        else false
      | _ => false
    else false

/-- `Chunk::data_as_string`: `String::from_utf8(self.data.clone())`,
returning the data bytes (as the content of the resulting string) when
they are valid UTF-8 and a failure otherwise. -/
def Chunk.data_as_string (c : Chunk) : Option (List Nat) :=
  if utf8Valid c.data then some c.data else none

/-- `impl Display for Chunk` (`chunk.rs:126-135`): formatting calls
`self.data_as_string().unwrap()` and then writes the length, tag, data
string and crc. The rendered fields are modelled as a tuple; `none`
models the panic of the `.unwrap()` when the data is not UTF-8. -/
def Chunk.displayFmt (c : Chunk) : Option (Nat × ChunkType × List Nat × Nat) :=
  match c.data_as_string with
  | none => none
  | some s => some (c.length, c.chunk_type, s, c.crc)

/-- The `"RuSt"` tag used throughout the repository's tests. -/
def rustTag : ChunkType := ⟨82, 117, 83, 116⟩

/-- The ASCII bytes of `"This is where your secret message will be!"`,
the data buffer used by the repository's tests. -/
def secretMsg : List Nat :=
  [84, 104, 105, 115, 32, 105, 115, 32, 119, 104, 101, 114, 101, 32,
   121, 111, 117, 114, 32, 115, 101, 99, 114, 101, 116, 32, 109, 101,
   115, 115, 97, 103, 101, 32, 119, 105, 108, 108, 32, 98, 101, 33]

/-- The valid encoded buffer used by the repository's tests
(`testing_chunk`): length 42, tag `"RuSt"`, the secret message, and
the correct crc `2882656334`. -/
def secretVec : List Nat :=
  u32ToBE 42 ++ rustTag.bytes ++ secretMsg ++ u32ToBE 2882656334

/-- The corrupted buffer of `test_invalid_chunk_from_bytes`: same as
`secretVec` but with stored crc `2882656333`. -/
def badCrcVec : List Nat :=
  u32ToBE 42 ++ rustTag.bytes ++ secretMsg ++ u32ToBE 2882656333

/-- A minimal valid encoded buffer: length 0, tag `"RuSt"`, no data,
and the matching crc. -/
def rustEmptyVec : List Nat :=
  [0, 0, 0, 0] ++ rustTag.bytes ++ u32ToBE (crc32 rustTag.bytes)

theorem readU32BE_lt (l : List Nat) : readU32BE l < 4294967296 := by
  unfold readU32BE
  split
  · omega
  · omega

theorem readU32BE_take4 (l : List Nat) : readU32BE (l.take 4) = readU32BE l := by
  rcases l with _ | ⟨a, _ | ⟨b, _ | ⟨c, _ | ⟨d, t⟩⟩⟩⟩ <;> rfl

theorem readU32BE_congr {l l' : List Nat} (h : l.take 4 = l'.take 4) :
    readU32BE l = readU32BE l' := by
  rw [← readU32BE_take4 l, ← readU32BE_take4 l', h]

theorem readU32BE_append {l : List Nat} (e : List Nat) (h : 4 ≤ l.length) :
    readU32BE (l ++ e) = readU32BE l := by
  apply readU32BE_congr
  exact List.take_append_of_le_length h

theorem u32ToBE_length (n : Nat) : (u32ToBE n).length = 4 := rfl

theorem ChunkType.bytes_length (t : ChunkType) : t.bytes.length = 4 := rfl

theorem readU32BE_u32ToBE (n : Nat) : readU32BE (u32ToBE n) = n % 4294967296 := by
  unfold u32ToBE readU32BE
  simp only
  omega

theorem u32ToBE_readU32BE {l : List Nat} (h4 : 4 ≤ l.length)
    (hb : ∀ b ∈ l, b < 256) : u32ToBE (readU32BE l) = l.take 4 := by
  rcases l with _ | ⟨a, _ | ⟨b, _ | ⟨c, _ | ⟨d, t⟩⟩⟩⟩ <;> simp at h4
  have ha : a < 256 := hb a (by simp)
  have hbb : b < 256 := hb b (by simp)
  have hc : c < 256 := hb c (by simp)
  have hd : d < 256 := hb d (by simp)
  unfold readU32BE u32ToBE
  simp only [List.take_succ_cons, List.take_zero, List.cons.injEq, and_true]
  omega

theorem crcBit_lt {c : Nat} (h : c < 4294967296) : crcBit c < 4294967296 := by
  have h32 : (4294967296 : Nat) = 2 ^ 32 := by norm_num
  unfold crcBit
  split
  · rw [h32]
    apply Nat.xor_lt_two_pow
    · omega
    · norm_num
  · omega

theorem crcBits_lt (n : Nat) {c : Nat} (h : c < 4294967296) :
    crcBits n c < 4294967296 := by
  induction n generalizing c with
  | zero => exact h
  | succ k ih => exact ih (crcBit_lt h)

theorem crcByte_lt {c b : Nat} (hc : c < 4294967296) (hb : b < 256) :
    crcByte c b < 4294967296 := by
  apply crcBits_lt
  have h32 : (4294967296 : Nat) = 2 ^ 32 := by norm_num
  rw [h32]
  exact Nat.xor_lt_two_pow (by omega) (by omega)

theorem crc_foldl_lt {bs : List Nat} (hb : ∀ b ∈ bs, b < 256) {c : Nat}
    (hc : c < 4294967296) : bs.foldl crcByte c < 4294967296 := by
  induction bs generalizing c with
  | nil => exact hc
  | cons x xs ih =>
    simp only [List.foldl_cons]
    exact ih (fun b h => hb b (List.mem_cons_of_mem x h))
      (crcByte_lt hc (hb x (List.mem_cons_self x xs)))

theorem crc32_lt {bs : List Nat} (hb : ∀ b ∈ bs, b < 256) :
    crc32 bs < 4294967296 := by
  unfold crc32
  have h32 : (4294967296 : Nat) = 2 ^ 32 := by norm_num
  rw [h32]
  exact Nat.xor_lt_two_pow (h32 ▸ crc_foldl_lt hb (by norm_num)) (by norm_num)

theorem ChunkType.tryFrom_bytes {t : ChunkType} (h : t.isValid = true) :
    ChunkType.tryFrom t.bytes = some t := by
  unfold ChunkType.isValid at h
  unfold ChunkType.tryFrom ChunkType.bytes
  simp only [h, if_true]

theorem ChunkType.tryFrom_some {bs : List Nat} {t : ChunkType}
    (h : ChunkType.tryFrom bs = some t) : t.bytes = bs ∧ t.isValid = true := by
  unfold ChunkType.tryFrom at h
  split at h
  · split at h
    · cases h
      constructor
      · rfl
      · assumption
    · cases h
  · cases h

theorem ChunkType.isValid_bytes_lt {t : ChunkType} (h : t.isValid = true) :
    ∀ b ∈ t.bytes, b < 256 := by
  unfold ChunkType.isValid isAsciiLetter at h
  simp only [Bool.and_eq_true, decide_eq_true_eq] at h
  unfold ChunkType.bytes
  intro b hb
  simp only [List.mem_cons, List.not_mem_nil, or_false] at hb
  rcases hb with rfl | rfl | rfl | rfl <;> omega

theorem tryFrom_ok_elim {v : List Nat} {c : Chunk} (h : Chunk.tryFrom v = .ok c) :
    readU32BE v + 12 ≤ v.length ∧
    ChunkType.tryFrom ((v.drop 4).take 4) = some c.chunk_type ∧
    c.length = readU32BE v ∧
    c.data = (v.drop 8).take (readU32BE v) ∧
    c.crc = readU32BE (v.drop (8 + readU32BE v)) ∧
    c.crc = Chunk.crc_checksum c.chunk_type c.data := by
  unfold Chunk.tryFrom at h
  by_cases h1 : v.length < 12
  · rw [if_pos h1] at h
    exact DecodeResult.noConfusion h
  rw [if_neg h1] at h
  by_cases h2 : v.length < readU32BE v + 12
  · rw [if_pos h2] at h
    exact DecodeResult.noConfusion h
  rw [if_neg h2] at h
  split at h
  · exact DecodeResult.noConfusion h
  · rename_i ct hct
    by_cases h3 : readU32BE (v.drop (8 + readU32BE v)) ≠
        Chunk.crc_checksum ct ((v.drop 8).take (readU32BE v))
    · rw [if_pos h3] at h
      exact DecodeResult.noConfusion h
    · rw [if_neg h3] at h
      rw [not_ne_iff] at h3
      rw [DecodeResult.ok.injEq] at h
      subst h
      exact ⟨by omega, hct, rfl, rfl, rfl, h3⟩

theorem tryFrom_prefix_congr {v w : List Nat} (hv : readU32BE v + 12 ≤ v.length)
    (hw : readU32BE v + 12 ≤ w.length)
    (heq : v.take (readU32BE v + 12) = w.take (readU32BE v + 12)) :
    Chunk.tryFrom v = Chunk.tryFrom w := by
  have hmin4 : min 4 (readU32BE v + 12) = 4 := by omega
  have hw4 : readU32BE w = readU32BE v := by
    apply readU32BE_congr
    calc w.take 4 = (w.take (readU32BE v + 12)).take 4 := by
          rw [List.take_take, hmin4]
      _ = (v.take (readU32BE v + 12)).take 4 := by rw [heq]
      _ = v.take 4 := by rw [List.take_take, hmin4]
  have hpiece : ∀ (x : List Nat) (m n : Nat), m + n ≤ readU32BE v + 12 →
      ((x.take (readU32BE v + 12)).drop m).take n = (x.drop m).take n := by
    intro x m n hmn
    have hminn : min n (readU32BE v + 12 - m) = n := by omega
    rw [List.drop_take, List.take_take, hminn]
  have htag : (w.drop 4).take 4 = (v.drop 4).take 4 := by
    rw [← hpiece w 4 4 (by omega), ← hpiece v 4 4 (by omega), heq]
  have hdata : (w.drop 8).take (readU32BE v) = (v.drop 8).take (readU32BE v) := by
    rw [← hpiece w 8 (readU32BE v) (by omega), ← hpiece v 8 (readU32BE v) (by omega), heq]
  have hcrc : readU32BE (w.drop (8 + readU32BE v)) = readU32BE (v.drop (8 + readU32BE v)) := by
    apply readU32BE_congr
    rw [← hpiece w (8 + readU32BE v) 4 (by omega),
      ← hpiece v (8 + readU32BE v) 4 (by omega), heq]
  unfold Chunk.tryFrom
  rw [if_neg (show ¬ v.length < 12 by omega), if_neg (show ¬ w.length < 12 by omega),
    hw4, if_neg (show ¬ v.length < readU32BE v + 12 by omega),
    if_neg (show ¬ w.length < readU32BE v + 12 by omega), htag, hdata, hcrc]

/-- C2: for every input byte slice, decode fails with the
`InvalidChunkLength` error (and produces no `Chunk`) whenever the slice
is shorter than 12 bytes, or whenever its total byte count is less than
12 plus the declared length read big-endian from the first 4 bytes. -/
theorem c2_length_rejection (v : List Nat)
    (h : v.length < 12 ∨ v.length < readU32BE v + 12) :
    Chunk.tryFrom v = .err .InvalidChunkLength := by
  unfold Chunk.tryFrom
  by_cases h1 : v.length < 12
  · rw [if_pos h1]
  · rw [if_neg h1, if_pos (by omega)]

theorem c2_length_rejection_witness :
    Chunk.tryFrom [0, 0, 0, 0, 82, 117] = .err .InvalidChunkLength :=
  c2_length_rejection [0, 0, 0, 0, 82, 117] (Or.inl (by decide))

/-- C4: the claim states that a tag-validation failure is returned
unchanged as decode's error result; the code instead calls `.unwrap()`
on the tag validation (`chunk.rs:85`) and panics. At the 12-byte input
whose tag bytes `"0000"` are not ASCII letters, decode panics rather
than returning an error. -/
theorem c4_tag_failure_panics :
    Chunk.tryFrom [0, 0, 0, 0, 48, 48, 48, 48, 0, 0, 0, 0] = .panic := by
  decide

/-- C5: for every `Chunk` (satisfying the length invariant of spec §3),
`as_bytes` is exactly the concatenation
`[length:4 BE][tag:4][data][crc:4 BE]`, and its total size is exactly
`12 + length`. -/
theorem c5_as_bytes_layout (c : Chunk) (h : c.length = c.data.length) :
    c.as_bytes = u32ToBE c.length ++ c.chunk_type.bytes ++ c.data ++ u32ToBE c.crc ∧
    c.as_bytes.length = 12 + c.length := by
  refine ⟨rfl, ?_⟩
  simp only [Chunk.as_bytes, List.length_append, u32ToBE_length, ChunkType.bytes_length]
  omega

theorem c5_as_bytes_layout_witness :
    (Chunk.new rustTag secretMsg).as_bytes.length = 12 + (Chunk.new rustTag secretMsg).length :=
  (c5_as_bytes_layout (Chunk.new rustTag secretMsg) (by decide)).2

/-- C6 as stated is false: `Chunk::new` stores `data.len() as u32`,
which truncates; constructing from a buffer of `2^32` zero bytes gives
a stored length of `0`, not `2^32`. -/
theorem c6_counterexample :
    ¬ ((Chunk.new rustTag (List.replicate 4294967296 0)).length =
        (Chunk.new rustTag (List.replicate 4294967296 0)).data.length) := by
  simp only [Chunk.new, List.length_replicate]
  omega

/-- C6 (amended): for every `Chunk` produced by `Chunk::new` from a
data buffer of fewer than `2^32` bytes, and for every `Chunk` produced
by successful decoding, the stored length field equals the byte count
of the stored data. -/
theorem c6_length_invariant :
    (∀ (t : ChunkType) (data : List Nat), data.length < 4294967296 →
      (Chunk.new t data).length = data.length) ∧
    (∀ (v : List Nat) (c : Chunk), Chunk.tryFrom v = .ok c →
      c.length = c.data.length) := by
  constructor
  · intro t data h
    simp only [Chunk.new]
    exact Nat.mod_eq_of_lt h
  · intro v c h
    obtain ⟨hsize, -, hlen, hdata, -, -⟩ := tryFrom_ok_elim h
    rw [hlen, hdata, List.length_take, List.length_drop]
    omega

theorem c6_length_invariant_witness :
    (Chunk.new rustTag secretMsg).length = secretMsg.length ∧
    (⟨42, rustTag, secretMsg, 2882656334⟩ : Chunk).length =
      (⟨42, rustTag, secretMsg, 2882656334⟩ : Chunk).data.length :=
  ⟨c6_length_invariant.1 rustTag secretMsg (by decide),
   c6_length_invariant.2 secretVec ⟨42, rustTag, secretMsg, 2882656334⟩ (by decide)⟩

/-- C7 as stated is false: the ASCII string
`"This is where your secret message will be!"` has 42 bytes, not 44,
so the chunk constructed from it has length field 42, not 44 (the
repository's own tests assert 42). -/
theorem c7_counterexample :
    (Chunk.new rustTag secretMsg).length = 42 ∧
    ¬ ((Chunk.new rustTag secretMsg).length = 44) := by
  constructor
  · decide
  · decide

/-- C7 (amended): for tag bytes `"RuSt"` and the 42-byte ASCII data
`"This is where your secret message will be!"`, constructing and
encoding yields length field 42 (the data's actual byte length),
decoding that buffer reproduces the constructed chunk (hence identical
tag and data), and the crc is stable under recomputation, with value
`2882656334`. -/
theorem c7_concrete_scenario :
    (Chunk.new rustTag secretMsg).length = 42 ∧
    Chunk.tryFrom (Chunk.new rustTag secretMsg).as_bytes = .ok (Chunk.new rustTag secretMsg) ∧
    (Chunk.new rustTag secretMsg).crc = Chunk.crc_checksum rustTag secretMsg ∧
    Chunk.crc_checksum rustTag secretMsg = 2882656334 := by
  refine ⟨by decide, by decide, by decide, by decide⟩

/-- C9: the `Display` implementation for `Chunk` unwraps the UTF-8
rendering of the data, so formatting panics exactly when the data is
not valid UTF-8; it succeeds exactly under the precondition that the
data is valid UTF-8. -/
theorem c9_display_partiality (c : Chunk) :
    c.displayFmt = none ↔ utf8Valid c.data = false := by
  unfold Chunk.displayFmt Chunk.data_as_string
  by_cases h : utf8Valid c.data
  · rw [if_pos h]
    simp [h]
  · rw [if_neg h]
    simp only [Bool.not_eq_true] at h
    simp [h]

/-- C3: for every input passing the size checks and tag parsing, decode
fails with `InvalidCrc` carrying the stored crc first and the
recomputed checksum second whenever they differ, and succeeds whenever
they are equal. -/
theorem c3_crc_check (v : List Nat) (t : ChunkType)
    (hsize : readU32BE v + 12 ≤ v.length)
    (htag : ChunkType.tryFrom ((v.drop 4).take 4) = some t) :
    (readU32BE (v.drop (8 + readU32BE v)) ≠
        Chunk.crc_checksum t ((v.drop 8).take (readU32BE v)) →
      Chunk.tryFrom v = .err (.InvalidCrc (readU32BE (v.drop (8 + readU32BE v)))
        (Chunk.crc_checksum t ((v.drop 8).take (readU32BE v))))) ∧
    (readU32BE (v.drop (8 + readU32BE v)) =
        Chunk.crc_checksum t ((v.drop 8).take (readU32BE v)) →
      Chunk.tryFrom v = .ok ⟨readU32BE v, t, (v.drop 8).take (readU32BE v),
        readU32BE (v.drop (8 + readU32BE v))⟩) := by
  unfold Chunk.tryFrom
  rw [if_neg (show ¬ v.length < 12 by omega),
    if_neg (show ¬ v.length < readU32BE v + 12 by omega)]
  constructor
  · intro hne
    simp only [htag, hne, if_true, ne_eq, not_false_eq_true]
  · intro heq
    simp only [htag, heq, ne_eq, not_true_eq_false, if_false, ite_false]

theorem c3_crc_check_witness :
    Chunk.tryFrom secretVec = .ok ⟨readU32BE secretVec, rustTag,
      (secretVec.drop 8).take (readU32BE secretVec),
      readU32BE (secretVec.drop (8 + readU32BE secretVec))⟩ :=
  (c3_crc_check secretVec rustTag (by decide) (by decide)).2 (by decide)

/-- C8: if decode succeeds on a buffer `v` with declared length
`readU32BE v`, then decode of `v` with arbitrary extra bytes appended
also succeeds with the identical chunk, which is also the chunk decoded
from `v` truncated exactly at `readU32BE v + 12` bytes. -/
theorem c8_trailing_bytes_ignored (v extra : List Nat) (c : Chunk)
    (h : Chunk.tryFrom v = .ok c) :
    Chunk.tryFrom (v ++ extra) = .ok c ∧
    Chunk.tryFrom (v.take (readU32BE v + 12)) = .ok c := by
  obtain ⟨hsize, -⟩ := tryFrom_ok_elim h
  constructor
  · rw [← tryFrom_prefix_congr hsize
      (by rw [List.length_append]; omega)
      (List.take_append_of_le_length (by omega)).symm]
    exact h
  · rw [← tryFrom_prefix_congr hsize
      (by rw [List.length_take]; omega)
      (by rw [List.take_take, min_self])]
    exact h

theorem c8_trailing_bytes_ignored_witness :
    Chunk.tryFrom (secretVec ++ [7, 7, 7]) = .ok ⟨42, rustTag, secretMsg, 2882656334⟩ ∧
    Chunk.tryFrom (secretVec.take (readU32BE secretVec + 12)) =
      .ok ⟨42, rustTag, secretMsg, 2882656334⟩ :=
  c8_trailing_bytes_ignored secretVec [7, 7, 7] ⟨42, rustTag, secretMsg, 2882656334⟩ (by decide)

/-- C1 as stated is false: `Chunk::new` stores `data.len() as u32`,
which truncates, so for a buffer of `2^32` zero bytes the encoded
length field is `0` and decoding the serialized chunk reads an empty
data slice and a stored crc of `0` (the buffer's first four zero
bytes), failing with `InvalidCrc` instead of returning the constructed
chunk. -/
theorem c1_counterexample :
    Chunk.tryFrom (Chunk.new rustTag (List.replicate 4294967296 0)).as_bytes ≠
      .ok (Chunk.new rustTag (List.replicate 4294967296 0)) := by
  have hval : (Chunk.new rustTag (List.replicate 4294967296 0)).as_bytes =
      u32ToBE 0 ++ (rustTag.bytes ++ (List.replicate 4294967296 0 ++
        u32ToBE (Chunk.crc_checksum rustTag (List.replicate 4294967296 0)))) := by
    simp only [Chunk.as_bytes, Chunk.new, List.length_replicate, Nat.mod_self,
      List.append_assoc]
  rw [hval]
  set big := List.replicate 4294967296 (0 : Nat) with hbig
  set K := Chunk.crc_checksum rustTag big with hKdef
  set E := u32ToBE 0 ++ (rustTag.bytes ++ (big ++ u32ToBE K)) with hE
  have hbig4 : (4 : Nat) ≤ big.length := by
    rw [hbig, List.length_replicate]
    omega
  have hElen : E.length = 4294967296 + 12 := by
    rw [hE]
    simp only [List.length_append, u32ToBE_length, ChunkType.bytes_length, hbig,
      List.length_replicate]
  have hread : readU32BE E = 0 := by
    rw [hE, readU32BE_append _ (by rw [u32ToBE_length])]
    decide
  have hdrop4 : E.drop 4 = rustTag.bytes ++ (big ++ u32ToBE K) := by
    rw [hE]
    exact List.drop_left' (u32ToBE_length 0)
  have htag : (E.drop 4).take 4 = rustTag.bytes := by
    rw [hdrop4]
    exact List.take_left' (ChunkType.bytes_length rustTag)
  have hdrop8 : E.drop 8 = big ++ u32ToBE K := by
    have h8 : E.drop 8 = (E.drop 4).drop 4 := by rw [List.drop_drop]
    rw [h8, hdrop4, List.drop_left' (ChunkType.bytes_length rustTag)]
  have hbigtake : big.take 4 = [0, 0, 0, 0] := by
    rw [hbig, List.take_replicate]
    have hmin : min 4 4294967296 = 4 := by omega
    rw [hmin]
    rfl
  have hcrc0 : readU32BE (E.drop 8) = 0 := by
    rw [hdrop8]
    have h1 : (big ++ u32ToBE K).take 4 = ([0, 0, 0, 0] : List Nat).take 4 := by
      rw [List.take_append_of_le_length hbig4, hbigtake]
      rfl
    rw [readU32BE_congr h1]
    decide
  unfold Chunk.tryFrom
  rw [hread]
  simp only [Nat.add_zero, List.take_zero]
  rw [if_neg (by omega), if_neg (by omega), htag,
    ChunkType.tryFrom_bytes (show rustTag.isValid = true by decide)]
  simp only [hcrc0]
  rw [if_pos (by decide)]
  simp

/-- C1 (amended): for every valid tag and every byte buffer (including
empty) of fewer than `2^32` bytes, decoding the serialized bytes of
the chunk constructed from them succeeds and returns exactly the
constructed chunk (field-wise, including the crc). -/
theorem c1_roundtrip (t : ChunkType) (data : List Nat) (ht : t.isValid = true)
    (hd : ∀ b ∈ data, b < 256) (hlen : data.length < 4294967296) :
    Chunk.tryFrom (Chunk.new t data).as_bytes = .ok (Chunk.new t data) := by
  have hK : Chunk.crc_checksum t data < 4294967296 := by
    apply crc32_lt
    intro b hb
    rcases List.mem_append.mp hb with h1 | h2
    · exact ChunkType.isValid_bytes_lt ht b h1
    · exact hd b h2
  have hval : (Chunk.new t data).as_bytes =
      u32ToBE data.length ++ (t.bytes ++ (data ++ u32ToBE (Chunk.crc_checksum t data))) := by
    simp only [Chunk.as_bytes, Chunk.new, Nat.mod_eq_of_lt hlen, List.append_assoc]
  rw [hval]
  set E := u32ToBE data.length ++ (t.bytes ++ (data ++ u32ToBE (Chunk.crc_checksum t data)))
    with hE
  have hlenE : E.length = data.length + 12 := by
    rw [hE]
    simp only [List.length_append, u32ToBE_length, ChunkType.bytes_length]
    omega
  have hread : readU32BE E = data.length := by
    rw [hE, readU32BE_append _ (by rw [u32ToBE_length]), readU32BE_u32ToBE,
      Nat.mod_eq_of_lt hlen]
  have hdrop4 : E.drop 4 = t.bytes ++ (data ++ u32ToBE (Chunk.crc_checksum t data)) := by
    rw [hE]
    exact List.drop_left' (u32ToBE_length data.length)
  have htag : (E.drop 4).take 4 = t.bytes := by
    rw [hdrop4]
    exact List.take_left' (ChunkType.bytes_length t)
  have hdrop8 : E.drop 8 = data ++ u32ToBE (Chunk.crc_checksum t data) := by
    have h8 : E.drop 8 = (E.drop 4).drop 4 := by rw [List.drop_drop]
    rw [h8, hdrop4, List.drop_left' (ChunkType.bytes_length t)]
  have hdata : (E.drop 8).take data.length = data := by
    rw [hdrop8]
    exact List.take_left' rfl
  have hdropcrc : E.drop (8 + data.length) = u32ToBE (Chunk.crc_checksum t data) := by
    have h8l : E.drop (8 + data.length) = (E.drop 8).drop data.length := by
      rw [List.drop_drop, Nat.add_comm]
    rw [h8l, hdrop8, List.drop_left' rfl]
  have hcrcread : readU32BE (E.drop (8 + data.length)) = Chunk.crc_checksum t data := by
    rw [hdropcrc, readU32BE_u32ToBE, Nat.mod_eq_of_lt hK]
  unfold Chunk.tryFrom
  rw [hread, hlenE, if_neg (by omega), if_neg (by omega), htag,
    ChunkType.tryFrom_bytes ht]
  simp only [hcrcread, hdata, ne_eq, not_true_eq_false, if_false, ite_false,
    DecodeResult.ok.injEq]
  simp only [Chunk.new, Nat.mod_eq_of_lt hlen]

theorem c1_roundtrip_witness :
    Chunk.tryFrom (Chunk.new rustTag secretMsg).as_bytes = .ok (Chunk.new rustTag secretMsg) :=
  c1_roundtrip rustTag secretMsg (by decide) (by decide) (by decide)

/-- C10: for every byte slice on which decode succeeds with declared
length `readU32BE v`, serializing the returned chunk with `as_bytes`
reproduces exactly the first `readU32BE v + 12` bytes of the slice. -/
theorem c10_encode_decode (v : List Nat) (c : Chunk) (hb : ∀ b ∈ v, b < 256)
    (h : Chunk.tryFrom v = .ok c) :
    c.as_bytes = v.take (readU32BE v + 12) := by
  obtain ⟨hsize, htag, hlen, hdata, hcrc, -⟩ := tryFrom_ok_elim h
  have hbytes_tag : c.chunk_type.bytes = (v.drop 4).take 4 := (ChunkType.tryFrom_some htag).1
  have h1 : u32ToBE c.length = v.take 4 := by
    rw [hlen]
    exact u32ToBE_readU32BE (by omega) hb
  have h4k : u32ToBE c.crc = (v.drop (8 + readU32BE v)).take 4 := by
    rw [hcrc]
    apply u32ToBE_readU32BE
    · rw [List.length_drop]
      omega
    · intro b hbm
      exact hb b (List.mem_of_mem_drop hbm)
  have hsplit : v.take (readU32BE v + 12) =
      v.take 4 ++ ((v.drop 4).take 4 ++
        ((v.drop 8).take (readU32BE v) ++ (v.drop (8 + readU32BE v)).take 4)) := by
    have e1 : readU32BE v + 12 = 4 + (4 + (readU32BE v + 4)) := by omega
    calc v.take (readU32BE v + 12)
        = v.take 4 ++ (v.drop 4).take (4 + (readU32BE v + 4)) := by
          rw [e1, List.take_add]
      _ = v.take 4 ++ ((v.drop 4).take 4 ++ ((v.drop 4).drop 4).take (readU32BE v + 4)) := by
          rw [List.take_add]
      _ = v.take 4 ++ ((v.drop 4).take 4 ++ (v.drop 8).take (readU32BE v + 4)) := by
          rw [List.drop_drop]
      _ = v.take 4 ++ ((v.drop 4).take 4 ++
            ((v.drop 8).take (readU32BE v) ++ ((v.drop 8).drop (readU32BE v)).take 4)) := by
          rw [List.take_add]
      _ = v.take 4 ++ ((v.drop 4).take 4 ++
            ((v.drop 8).take (readU32BE v) ++ (v.drop (8 + readU32BE v)).take 4)) := by
          rw [List.drop_drop, Nat.add_comm]
  rw [Chunk.as_bytes, h1, hbytes_tag, hdata, h4k, hsplit]
  simp [List.append_assoc]

theorem c10_encode_decode_witness :
    (⟨42, rustTag, secretMsg, 2882656334⟩ : Chunk).as_bytes =
      secretVec.take (readU32BE secretVec + 12) :=
  c10_encode_decode secretVec ⟨42, rustTag, secretMsg, 2882656334⟩ (by decide) (by decide)
